import Mathlib

/-!
Verification development for the w3stringsx CSV string-table pipeline
(`src/w3stringsx.py`).

Python strings are modelled as `List Char`; Python `str` helpers
(`strip`, `split`, `rjust`, `count`) are given executable `List Char`
counterparts mirroring their semantics on the inputs the program feeds
them.  Python `int` values are `Int`, `//` is `Int.fdiv` and `%` is
`Int.emod` (floor division and nonnegative remainder for positive
modulus, exactly Python's semantics).  Python sets are `Finset`.
Fallible code returns `Except (List Char) _`, the payload being the
exception message the Python code builds.
-/

/-! ## Python string primitives -/

/-- Python `str.split(sep)` for a one-character separator: splits on every
occurrence, keeping empty parts; the empty string yields `[""]`. -/
def pySplit (sep : Char) : List Char → List (List Char)
  | [] => [[]]
  | c :: rest =>
    let r := pySplit sep rest
    if c = sep then [] :: r
    else
      match r with
      | h :: t => (c :: h) :: t
      | [] => [[c]]

/-- Python `str.strip()`: drop whitespace from both ends. -/
def pyStrip (s : List Char) : List Char :=
  ((s.dropWhile Char.isWhitespace).reverse.dropWhile Char.isWhitespace).reverse

/-- Python `str.rjust(width, fill)`. -/
def pyRjust (s : List Char) (width : Nat) (fill : Char) : List Char :=
  List.replicate (width - s.length) fill ++ s

/-- Python `int(s)` on the decimal forms the program feeds it: optional
surrounding whitespace, optional sign, a nonempty run of ASCII digits. -/
def pyParseInt (s : List Char) : Option Int :=
  let t := pyStrip s
  let core : Option (List Char) :=
    match t with
    | '-' :: rest => some rest
    | '+' :: rest => some rest
    | _ => some t
  match core with
  | some digits =>
    if digits = [] then none
    else if digits.all Char.isDigit then
      let n : Nat := digits.foldl (fun acc c => acc * 10 + (c.toNat - '0'.toNat)) 0
      match t with
      | '-' :: _ => some (-(n : Int))
      | _ => some (n : Int)
    else none
  | none => none

/-- Decimal rendering of a Python `int` (`str(id)`). -/
def intChars (n : Int) : List Char :=
  if n < 0 then '-' :: Nat.toDigits 10 (-n).toNat else Nat.toDigits 10 n.toNat

/-- Python `str([ ... ])` for a list of ints, `[a, b, c]`. -/
def intListChars (l : List Int) : List Char :=
  let rec go : List Int → List Char
    | [] => []
    | [n] => intChars n
    | n :: rest => intChars n ++ ',' :: ' ' :: go rest
  '[' :: go l ++ [']']

/-- Python truthiness of `a or b` on `int | None` operands: both `None`
and `0` are falsy. -/
def pyOrInt (a b : Option Int) : Option Int :=
  match a with
  | none => b
  | some x => if x = 0 then b else some x

/-- Python truthiness of `a or b` on `str | None` operands: `None` and
the empty string are falsy. -/
def pyOrStr (a : Option (List Char)) (b : List Char) : List Char :=
  match a with
  | none => b
  | some s => if s = [] then b else s

/-! ## Record model (`CsvAbbreviatedEntry`, `CsvCompleteEntry`,
`CsvCommentAttribute`, `parse_entry`) -/

/-- `MOD_ID_RANGE = range(2110000000, 2120000000)`. -/
def MOD_ID_RANGE_start : Int := 2110000000

def MOD_ID_RANGE_stop : Int := 2120000000

structure CsvAbbreviatedEntry where
  key_str : List Char
  text : List Char
deriving DecidableEq

structure CsvCompleteEntry where
  id : Int
  key_hex : List Char
  key_str : List Char
  text : List Char
deriving DecidableEq

structure CsvCommentAttribute where
  key : List Char
  value : List Char
deriving DecidableEq

/-- `IdSpace = int | Literal["vanilla"]`. -/
inductive IdSpace where
  | vanilla
  | modSpace (n : Int)
deriving DecidableEq

/-- `CsvAbbreviatedEntry.into_complete`. -/
def CsvAbbreviatedEntry.into_complete (e : CsvAbbreviatedEntry) (id : Int)
    (key_hex : List Char) : CsvCompleteEntry :=
  { id := id, key_hex := key_hex, key_str := e.key_str, text := e.text }

/-- `CsvCompleteEntry.id_space`: ids outside `MOD_ID_RANGE` are vanilla,
otherwise `(id % 2110000000) // 1000`. -/
def CsvCompleteEntry.id_space (e : CsvCompleteEntry) : IdSpace :=
  if e.id < MOD_ID_RANGE_start ∨ MOD_ID_RANGE_stop ≤ e.id then .vanilla
  else .modSpace ((e.id % MOD_ID_RANGE_start).fdiv 1000)

/-- The four shapes a parsed CSV line can take; `plain` is the Python
`str` case (an empty line or an informational comment). -/
inductive CsvLine where
  | plain (s : List Char)
  | attr (a : CsvCommentAttribute)
  | abbreviated (e : CsvAbbreviatedEntry)
  | complete (e : CsvCompleteEntry)
deriving DecidableEq

/-- `str(...)` of each line shape: `CsvAbbreviatedEntry.__str__`,
`CsvCompleteEntry.__str__` (id right-justified to 10, key_hex to 8),
`CsvCommentAttribute.__str__` and plain text verbatim. -/
def lineChars : CsvLine → List Char
  | .plain s => s
  | .attr a => ';' :: (a.key ++ '=' :: a.value)
  | .abbreviated e => e.key_str ++ '|' :: e.text
  | .complete e =>
    pyRjust (intChars e.id) 10 ' ' ++ '|' :: pyRjust e.key_hex 8 ' '
      ++ '|' :: e.key_str ++ '|' :: e.text

/-- `parse_entry`: strip the line; empty lines stay plain text; `;`-lines
are comment attributes exactly when splitting the rest on `=` yields two
parts whose key has no space; otherwise split on `|` into an abbreviated
(2 fields) or complete (4 fields, integer id) entry. -/
def parse_entry (s0 : List Char) : Except (List Char) CsvLine :=
  let s := pyStrip s0
  if s.length = 0 then .ok (.plain s)
  else if s.head? = some ';' then
    match pySplit '=' (s.drop 1) with
    | [k, v] =>
      if k.count ' ' = 0 then .ok (.attr { key := k, value := v })
      else .ok (.plain s)
    | _ => .ok (.plain s)
  else
    match pySplit '|' (pyStrip s) with
    | [k, t] => .ok (.abbreviated { key_str := k, text := t })
    | [a, b, c, d] =>
      match pyParseInt a with
      | some id => .ok (.complete { id := id, key_hex := b, key_str := c, text := d })
      | none => .error ("Failed to parse id column to a number".toList)
    | split =>
      .error ("Invalid column count. Expected 2 or 4, got ".toList
        ++ Nat.toDigits 10 split.length)

/-- `lf_to_crlf`: the replaced string is built but discarded (Python
`data.replace(...)` returns a new string that is never assigned), so the
file content written back is the data that was read. -/
def replaceLfWithCrlf : List Char → List Char
  | [] => []
  | c :: rest =>
    if c = '\n' then '\r' :: '\n' :: replaceLfWithCrlf rest
    else c :: replaceLfWithCrlf rest

def lf_to_crlf (data : List Char) : List Char :=
  let _replaced := replaceLfWithCrlf data
  data

instance {ε α : Type} [DecidableEq ε] [DecidableEq α] : DecidableEq (Except ε α) :=
  fun a b =>
    match a, b with
    | .ok x, .ok y =>
      if h : x = y then isTrue (by rw [h])
      else isFalse (by intro hc; cases hc; exact h rfl)
    | .error x, .error y =>
      if h : x = y then isTrue (by rw [h])
      else isFalse (by intro hc; cases hc; exact h rfl)
    | .ok _, .error _ => isFalse (by intro hc; cases hc)
    | .error _, .ok _ => isFalse (by intro hc; cases hc)

/-! ## Input-document parser (`CsvInputDocument.read_content`,
`read_content_id_space`) -/

structure CsvInputDocument where
  target_lang : Option (List Char)
  header_lang_meta : Option (List Char)
  header_mod_id_space : Option Int
  entries_abbrev : List CsvAbbreviatedEntry
  entries_complete : List CsvCompleteEntry
  content_mod_id_space : Option Int
  has_vanilla_entries : Bool
deriving DecidableEq

/-- The content loop of `read_content`: every line not starting with `;`
goes through `parse_entry`; abbreviated and complete entries are
accumulated in file order; the first parse failure aborts the whole scan
with the 0-based `enumerate` index of the offending line in the message. -/
def scanEntries : List (List Char) → Nat →
    Except (List Char) (List CsvAbbreviatedEntry × List CsvCompleteEntry)
  | [], _ => .ok ([], [])
  | line :: rest, i =>
    if line.head? = some ';' then scanEntries rest (i + 1)
    else
      match parse_entry line with
      | .error e =>
        .error ("Failed to read line ".toList ++ Nat.toDigits 10 i ++ ":\n".toList ++ e)
      | .ok entry =>
        match scanEntries rest (i + 1) with
        | .error e2 => .error e2
        | .ok (abbrevs, completes) =>
          match entry with
          | .abbreviated a => .ok (a :: abbrevs, completes)
          | .complete c => .ok (abbrevs, c :: completes)
          | _ => .ok (abbrevs, completes)

/-- `duplicate_ids = [id for id in all_ids if all_ids.count(id) > 1]`. -/
def duplicate_ids (all_ids : List Int) : List Int :=
  all_ids.filter (fun id => decide (1 < all_ids.count id))

/-- The set of mod id spaces appearing among the complete entries
(a Python `set`, modelled as the deduplicated list). -/
def modIdSpacesOf (ec : List CsvCompleteEntry) : List Int :=
  ((ec.map (fun e => e.id_space)).filterMap
    (fun sp => match sp with | .vanilla => none | .modSpace n => some n)).dedup

/-- The `if/elif` cross-check at the end of `read_content_id_space` and
the final assembled document. -/
def finishContentChecks (tl hlm : Option (List Char)) (hms : Option Int)
    (ea : List CsvAbbreviatedEntry) (ec : List CsvCompleteEntry)
    (content : Option Int) (hv : Bool) : Except (List Char) CsvInputDocument :=
  let doc : CsvInputDocument :=
    { target_lang := tl, header_lang_meta := hlm, header_mod_id_space := hms,
      entries_abbrev := ea, entries_complete := ec,
      content_mod_id_space := content, has_vanilla_entries := hv }
  match hms, content with
  | some h, some c =>
    if h ≠ c then
      .error ("Id space in the header (".toList ++ intChars h
        ++ ") and id space used in the entries (".toList ++ intChars c
        ++ ") do not match".toList)
    else .ok doc
  | none, none =>
    if 0 < ea.length then
      .error ("No id space was provided to complete abbreviated entries".toList)
    else .ok doc
  | _, _ => .ok doc

/-- `read_content` followed by `read_content_id_space`, acting on the
fields established by the earlier header phase. -/
def read_content (tl hlm : Option (List Char)) (hms : Option Int)
    (file_lines : List (List Char)) : Except (List Char) CsvInputDocument :=
  match scanEntries file_lines 0 with
  | .error e => .error e
  | .ok (ea, ec) =>
    if ea.length + ec.length = 0 then .error ("File has no data to encode".toList)
    else
      let all_ids := ec.map (fun e => e.id)
      let dups := duplicate_ids all_ids
      if 1 < dups.length then
        .error ("There are multiple entries with the same id: ".toList ++ intListChars dups)
      else
        let hv := decide (IdSpace.vanilla ∈ ec.map (fun e => e.id_space))
        match modIdSpacesOf ec with
        | [] => finishContentChecks tl hlm hms ea ec none hv
        | [n] => finishContentChecks tl hlm hms ea ec (some n) hv
        | spaces =>
          .error ("There are entries for multiple mod id spaces: ".toList
            ++ intListChars spaces)

/-! ## Output-document composer (`prepare_output_csv`) -/

structure CsvOutputDocument where
  target_lang : List Char
  header_lang_meta : List Char
  entries : List CsvCompleteEntry
  id_space : Option Int
deriving DecidableEq

/-- `set([entry.id for entry in input.entries_complete])`. -/
def idSet (ec : List CsvCompleteEntry) : Finset Int := (ec.map (fun e => e.id)).toFinset

/-- The `while id_counter in id_set` loop: remove each hit from the
working set and advance the counter.  Each iteration removes one element
of the finite set, so `s.card` iterations always suffice; the fuel is
that bound and the zero-fuel fallback is never reached with fuel
`s.card`. -/
def skipUsedGo : Nat → Finset Int → Int → Finset Int × Int
  | 0, s, c => (s, c)
  | fuel + 1, s, c => if c ∈ s then skipUsedGo fuel (s.erase c) (c + 1) else (s, c)

def skipUsed (s : Finset Int) (c : Int) : Finset Int × Int := skipUsedGo s.card s c

/-- The allocation loop of `prepare_output_csv`: for each abbreviated
entry in order, skip counter values already used, complete the entry at
the first free counter value with an empty synthesized key_hex, and
advance the counter. -/
def allocate : List CsvAbbreviatedEntry → Finset Int → Int → List CsvCompleteEntry
  | [], _, _ => []
  | e :: rest, s, c =>
    let p := skipUsed s c
    e.into_complete p.2 [] :: allocate rest p.1 (p.2 + 1)

/-- The completions of the abbreviated entries produced by
`prepare_output_csv`: only when the resolved id space (Python
`header or content`) is truthy and abbreviated entries exist. -/
def allocated_entries (input : CsvInputDocument) : List CsvCompleteEntry :=
  match pyOrInt input.header_mod_id_space input.content_mod_id_space with
  | some sp =>
    if 0 < input.entries_abbrev.length then
      allocate input.entries_abbrev (idSet input.entries_complete)
        (MOD_ID_RANGE_start + sp * 1000)
    else []
  | none => []

/-- `prepare_output_csv`: defaults for language fields, `header or
content` id-space resolution, id allocation, append the original
complete entries, stable sort ascending by id, and disable the id space
whenever vanilla entries were seen. -/
def prepare_output_csv (input : CsvInputDocument) : CsvOutputDocument :=
  let header_lang_meta := pyOrStr input.header_lang_meta ("en".toList)
  let target_lang := pyOrStr input.target_lang ("en".toList)
  let id_space := pyOrInt input.header_mod_id_space input.content_mod_id_space
  let output_entries := allocated_entries input ++ input.entries_complete
  { target_lang := target_lang,
    header_lang_meta := header_lang_meta,
    entries := output_entries.insertionSort (fun a b => a.id ≤ b.id),
    id_space := if input.has_vanilla_entries then none else id_space }

/-- The spec's allocation scenario: header sub-space 42, one complete
record with id 2110042005, one abbreviated entry `k2|t2`. -/
def scenarioDoc42 : CsvInputDocument :=
  { target_lang := none, header_lang_meta := none, header_mod_id_space := some 42,
    entries_abbrev := [⟨"k2".toList, "t2".toList⟩],
    entries_complete := [⟨2110042005, "0000000A".toList, "k1".toList, "t1".toList⟩],
    content_mod_id_space := some 42, has_vanilla_entries := false }

/-! ## Merge engine (`CsvMergingDocument`, `merge_abbreviated_entries`) -/

/-- In-memory state of `CsvMergingDocument`: the parsed line buffer, the
`(section_name, line_idx)` pairs, and the set of keys present when the
file was opened. -/
structure CsvMergingDocument where
  file_lines : List CsvLine
  sections : List (List Char × Nat)
  str_keys : Finset (List Char)
deriving DecidableEq

/-- The key a line contributes to `str_keys` (abbreviated and complete
entries only). -/
def lineKey : CsvLine → Option (List Char)
  | .abbreviated e => some e.key_str
  | .complete e => some e.key_str
  | _ => none

/-- The set of `key_str` values across both record kinds. -/
def strKeysOf (ls : List CsvLine) : Finset (List Char) := (ls.filterMap lineKey).toFinset

/-- The `(line.value, i)` pairs of the lines that are a `section`
comment attribute, in file order. -/
def sectionsOf (ls : List CsvLine) : List (List Char × Nat) :=
  ls.enum.filterMap (fun p =>
    match p.2 with
    | .attr a => if a.key = "section".toList then some (a.value, p.1) else none
    | _ => none)

/-- The read loop of `CsvMergingDocument.__init__`: every line goes
through `parse_entry`; the first failure aborts with the 0-based line
index in the message. -/
def parseLines : List (List Char) → Nat → Except (List Char) (List CsvLine)
  | [], _ => .ok []
  | line :: rest, i =>
    match parse_entry line with
    | .error e =>
      .error ("Failed to read line ".toList ++ Nat.toDigits 10 i ++ ":\n".toList ++ e)
    | .ok l =>
      match parseLines rest (i + 1) with
      | .error e2 => .error e2
      | .ok ls => .ok (l :: ls)

/-- `CsvMergingDocument.__init__` on the decoded line sequence. -/
def openMergingDoc (lines : List (List Char)) : Except (List Char) CsvMergingDocument :=
  match parseLines lines 0 with
  | .error e => .error e
  | .ok ls => .ok { file_lines := ls, sections := sectionsOf ls, str_keys := strKeysOf ls }

/-- The search loop of `CsvMergingDocument.section_range`: the first
matching section yields `(marker_idx + 1, next_marker_idx)`, or
`(marker_idx + 1, file_length)` when it is the last section. -/
def findSectionRange : List (List Char × Nat) → Nat → List Char → Option (Nat × Nat)
  | [], _, _ => none
  | q :: rest, flen, target =>
    if q.1 = target then
      some (q.2 + 1, match rest with | [] => flen | q2 :: _ => q2.2)
    else findSectionRange rest flen target

/-- `CsvMergingDocument.section_range`, including its append-a-new-marker
side effect when no matching section exists (the mutated document is
returned alongside the range). -/
def section_range (d : CsvMergingDocument) (target : List Char) :
    CsvMergingDocument × Nat × Nat :=
  match findSectionRange d.sections d.file_lines.length target with
  | some r => (d, r)
  | none =>
    let marker : CsvLine := .attr { key := "section".toList, value := target }
    ({ file_lines := d.file_lines ++ [marker],
       sections := d.sections ++ [(target, d.file_lines.length)],
       str_keys := d.str_keys },
     d.file_lines.length + 1, d.file_lines.length + 1)

/-- Python `self.file_lines[idx:idx] = entries`. -/
def spliceAt (l : List CsvLine) (i : Nat) (xs : List CsvLine) : List CsvLine :=
  l.take i ++ xs ++ l.drop i

/-- `CsvMergingDocument.insert_entries`: filter out entries whose key is
already in `str_keys`, then splice the rest at the stop index of the
target section's range. -/
def insert_entries (d : CsvMergingDocument) (entries : List CsvAbbreviatedEntry)
    (target : List Char) : CsvMergingDocument :=
  let kept := entries.filter (fun e => decide (e.key_str ∉ d.str_keys))
  let r := section_range d target
  { file_lines := spliceAt r.1.file_lines r.2.2 (kept.map CsvLine.abbreviated),
    sections := r.1.sections,
    str_keys := r.1.str_keys }

/-- The section loop of `merge_abbreviated_entries` (dict iteration in
insertion order; empty candidate lists are skipped). -/
def applyInserts : CsvMergingDocument → List (List Char × List CsvAbbreviatedEntry) →
    CsvMergingDocument
  | d, [] => d
  | d, (sect, es) :: rest =>
    applyInserts (if 0 < es.length then insert_entries d es sect else d) rest

/-- `CsvMergingDocument.save`: the line buffer re-serialized via `str`. -/
def saveLines (d : CsvMergingDocument) : List (List Char) := d.file_lines.map lineChars

/-- `merge_abbreviated_entries` on file content: open, insert every
section's candidates, serialize back. -/
def merge_abbreviated_entries (entries : List (List Char × List CsvAbbreviatedEntry))
    (lines : List (List Char)) : Except (List Char) (List (List Char)) :=
  match openMergingDoc lines with
  | .error e => .error e
  | .ok d => .ok (saveLines (applyInserts d entries))

/-! ## Round-trip predicates for the merge idempotence analysis -/

/-- A parsed line whose `str` form parses back to itself.  All lines the
tool itself writes (canonical complete entries, abbreviated entries with
ordinary keys, comments, attributes) satisfy this. -/
def lineRoundtrips (l : CsvLine) : Prop :=
  parse_entry (lineChars l) = Except.ok l

instance : DecidablePred lineRoundtrips := fun l =>
  inferInstanceAs (Decidable (parse_entry (lineChars l) = Except.ok l))

/-- A raw line whose parse result (if any) round-trips. -/
def sourceRoundtrips (s : List Char) : Prop :=
  ∀ l, parse_entry s = Except.ok l → lineRoundtrips l

instance : DecidablePred sourceRoundtrips := fun s =>
  match h : parse_entry s with
  | .ok l =>
    if hr : lineRoundtrips l then
      isTrue (fun l2 h2 => by rw [h] at h2; cases h2; exact hr)
    else
      isFalse (fun hall => hr (hall l h))
  | .error e => isTrue (fun l2 h2 => by rw [h] at h2; cases h2)

/-- Every line of the buffer round-trips. -/
def RTLines (d : CsvMergingDocument) : Prop :=
  ∀ l ∈ d.file_lines, lineRoundtrips l

/-- Every tracked key is witnessed by some line of the buffer. -/
def KeysSound (d : CsvMergingDocument) : Prop :=
  ∀ k ∈ d.str_keys, ∃ l ∈ d.file_lines, lineKey l = some k

/-- Every tracked section name is witnessed by a marker line of the
buffer. -/
def SectionsSound (d : CsvMergingDocument) : Prop :=
  ∀ q ∈ d.sections, CsvLine.attr ⟨"section".toList, q.1⟩ ∈ d.file_lines

/-! ## Theorems -/

/-- C5: `id_space` classifies an entry as vanilla exactly when its id
lies outside `[2110000000, 2120000000)`, and for every id inside that
range it returns `(id - 2110000000) // 1000`, a value in `[0, 10000)`
(the code's `(id % 2110000000) // 1000` coincides with the subtraction
on the range). -/
theorem C5_id_space_classification (e : CsvCompleteEntry) :
    (e.id_space = IdSpace.vanilla ↔ (e.id < 2110000000 ∨ 2120000000 ≤ e.id)) ∧
    (2110000000 ≤ e.id → e.id < 2120000000 →
      e.id_space = IdSpace.modSpace ((e.id - 2110000000).fdiv 1000) ∧
      0 ≤ (e.id - 2110000000).fdiv 1000 ∧ (e.id - 2110000000).fdiv 1000 < 10000) := by
  unfold CsvCompleteEntry.id_space MOD_ID_RANGE_start MOD_ID_RANGE_stop
  constructor
  · split
    · simp only [true_iff]
      omega
    · simp only [reduceCtorEq, false_iff]
      omega
  · intro h1 h2
    rw [if_neg (by omega)]
    rw [Int.fdiv_eq_ediv _ (by norm_num), Int.fdiv_eq_ediv _ (by norm_num)]
    have h3 : e.id % 2110000000 = e.id - 2110000000 := by
      have h4 : e.id - 2110000000 + 2110000000 * 1 = e.id := by ring
      calc e.id % 2110000000
          = (e.id - 2110000000 + 2110000000 * 1) % 2110000000 := by rw [h4]
        _ = (e.id - 2110000000) % 2110000000 := Int.add_mul_emod_self_left _ _ _
        _ = e.id - 2110000000 := Int.emod_eq_of_lt (by omega) (by omega)
    rw [h3]
    refine ⟨rfl, by omega, by omega⟩

/-- C5 witness: the classification evaluated at the concrete in-range id
2110042005 (sub-space 42) and at the out-of-range id 1234567. -/
theorem C5_id_space_classification_witness :
    ((2110000000 : Int) ≤ 2110042005 ∧ (2110042005 : Int) < 2120000000) ∧
    CsvCompleteEntry.id_space ⟨2110042005, [], [], []⟩ =
      IdSpace.modSpace (((2110042005 : Int) - 2110000000).fdiv 1000) ∧
    CsvCompleteEntry.id_space ⟨1234567, [], [], []⟩ = IdSpace.vanilla :=
  ⟨⟨by decide, by decide⟩,
   ((C5_id_space_classification ⟨2110042005, [], [], []⟩).2 (by decide) (by decide)).1,
   ((C5_id_space_classification ⟨1234567, [], [], []⟩).1).2 (by decide)⟩

/-- C10: `lf_to_crlf` writes back exactly the text it read — the result
of the newline replacement is discarded — even though the replacement
itself would have changed a text containing a bare LF. -/
theorem C10_lf_to_crlf_is_identity :
    (∀ data : List Char, lf_to_crlf data = data) ∧
    replaceLfWithCrlf "a\n".toList ≠ "a\n".toList :=
  ⟨fun _ => rfl, by decide⟩

/-- C1 (code bug): a document whose header declares sub-space 0 and
whose only record is abbreviated passes validation (`read_content`
accepts it, treating the header value as the id space that will complete
the abbreviated entries), yet `prepare_output_csv` resolves the final
sub-space with Python `or`, for which 0 is falsy: the resolution yields
`None` instead of the header-declared 0 and the abbreviated entry is
silently dropped from the output. -/
theorem C1_header_zero_subspace_dropped :
    read_content none none (some 0) ["greet|Hello".toList] =
      Except.ok { target_lang := none, header_lang_meta := none,
                  header_mod_id_space := some 0,
                  entries_abbrev := [⟨"greet".toList, "Hello".toList⟩],
                  entries_complete := [], content_mod_id_space := none,
                  has_vanilla_entries := false } ∧
    pyOrInt (some 0) none = none ∧
    (prepare_output_csv
      { target_lang := none, header_lang_meta := none,
        header_mod_id_space := some 0,
        entries_abbrev := [⟨"greet".toList, "Hello".toList⟩],
        entries_complete := [], content_mod_id_space := none,
        has_vanilla_entries := false }).id_space = none ∧
    (prepare_output_csv
      { target_lang := none, header_lang_meta := none,
        header_mod_id_space := some 0,
        entries_abbrev := [⟨"greet".toList, "Hello".toList⟩],
        entries_complete := [], content_mod_id_space := none,
        has_vanilla_entries := false }).entries = [] := by
  refine ⟨by decide, by decide, by decide, ?_⟩
  simp [prepare_output_csv, allocated_entries, pyOrInt]

/-- C2 (code bug): one `merge_abbreviated_entries` call inserting into
`menu` and then `bundle` of the same document places the `bundle`
candidate at line index 3, before the `;section=bundle` marker (index 5)
— the `sections` indices recorded at open time are not updated after the
first insertion shifts the buffer, so the inserted line is not between
the target section's marker and the next marker. -/
theorem C2_stale_section_indices :
    merge_abbreviated_entries
      [("menu".toList, [⟨"a1".toList, "t".toList⟩, ⟨"a2".toList, "t".toList⟩,
         ⟨"a3".toList, "t".toList⟩]),
       ("bundle".toList, [⟨"b1".toList, "t".toList⟩])]
      [";section=menu".toList, ";section=bundle".toList, "x|y".toList,
       ";section=scripts".toList]
    = Except.ok
      [";section=menu".toList, "a1|t".toList, "a2|t".toList, "b1|t".toList,
       "a3|t".toList, ";section=bundle".toList, "x|y".toList,
       ";section=scripts".toList] ∧
    [";section=menu".toList, "a1|t".toList, "a2|t".toList, "b1|t".toList,
       "a3|t".toList, ";section=bundle".toList, "x|y".toList,
       ";section=scripts".toList].get? 3 = some "b1|t".toList ∧
    [";section=menu".toList, "a1|t".toList, "a2|t".toList, "b1|t".toList,
       "a3|t".toList, ";section=bundle".toList, "x|y".toList,
       ";section=scripts".toList].get? 5 = some ";section=bundle".toList := by
  refine ⟨by decide, by decide, by decide⟩

/-- C9: `insert_entries` never adds the keys it inserts to `str_keys`
(the filter set stays exactly the keys read when the document was
opened), and consequently a single merge invocation that lists the same
fresh key under two sections inserts it twice. -/
theorem C9_duplicate_suppression_only_against_disk :
    (∀ (d : CsvMergingDocument) (es : List CsvAbbreviatedEntry) (t : List Char),
        (insert_entries d es t).str_keys = d.str_keys) ∧
    merge_abbreviated_entries
      [("menu".toList, [⟨"dup".toList, "t".toList⟩]),
       ("bundle".toList, [⟨"dup".toList, "t".toList⟩])]
      [";section=menu".toList, ";section=bundle".toList]
    = Except.ok [";section=menu".toList, "dup|t".toList, ";section=bundle".toList,
       "dup|t".toList] ∧
    ([";section=menu".toList, "dup|t".toList, ";section=bundle".toList,
       "dup|t".toList].count "dup|t".toList) = 2 := by
  refine ⟨?_, by decide, by decide⟩
  intro d es t
  unfold insert_entries section_range
  cases h : findSectionRange d.sections d.file_lines.length t <;> simp [h]

/-- Any successful result of the final header/content cross-check is the
assembled document itself. -/
theorem finishContentChecks_ok_shape (tl hlm : Option (List Char)) (hms : Option Int)
    (ea : List CsvAbbreviatedEntry) (ec : List CsvCompleteEntry)
    (content : Option Int) (hv : Bool) (d : CsvInputDocument)
    (h : finishContentChecks tl hlm hms ea ec content hv = Except.ok d) :
    d = { target_lang := tl, header_lang_meta := hlm, header_mod_id_space := hms,
          entries_abbrev := ea, entries_complete := ec,
          content_mod_id_space := content, has_vanilla_entries := hv } := by
  unfold finishContentChecks at h
  split at h
  · split at h
    · exact absurd h (by simp)
    · exact (Except.ok.inj h).symm
  · split at h
    · exact absurd h (by simp)
    · exact (Except.ok.inj h).symm
  · exact (Except.ok.inj h).symm

/-- C8: the duplicate-id validation fires exactly when two complete
records share an id.  `duplicate_ids` collects every occurrence of every
repeated id, so its length is never 1: the code's `len(duplicate_ids) >
1` test is equivalent to the existence of a duplicated pair.  Moreover
any document `read_content` accepts has pairwise distinct complete-record
ids. -/
theorem C8_duplicate_id_validation :
    (∀ ids : List Int, 1 < (duplicate_ids ids).length ↔ ¬ ids.Nodup) ∧
    (∀ tl hlm hms lines d, read_content tl hlm hms lines = Except.ok d →
      (d.entries_complete.map (fun e => e.id)).Nodup) := by
  have key : ∀ ids : List Int, 1 < (duplicate_ids ids).length ↔ ¬ ids.Nodup := by
    intro ids
    constructor
    · intro h hnodup
      have hempty : duplicate_ids ids = [] := by
        rw [duplicate_ids, List.filter_eq_nil_iff]
        intro a ha
        have := (List.nodup_iff_count_le_one.mp hnodup) a
        simp only [decide_eq_true_eq]
        omega
      rw [hempty] at h
      simp at h
    · intro h
      rcases (not_forall.mp (fun hall => h (List.nodup_iff_count_le_one.mpr hall))) with ⟨a, ha⟩
      have hcount : 1 < ids.count a := by omega
      have hfc : (duplicate_ids ids).count a = ids.count a := by
        rw [duplicate_ids]
        exact List.count_filter (by simpa using hcount)
      have := List.count_le_length a (duplicate_ids ids)
      omega
  refine ⟨key, ?_⟩
  intro tl hlm hms lines d h
  rw [read_content] at h
  rcases hscan : scanEntries lines 0 with e | p
  · rw [hscan] at h; exact absurd h (by simp)
  · rw [hscan] at h
    rcases p with ⟨ea, ec⟩
    dsimp only at h
    by_cases hempty : ea.length + ec.length = 0
    · rw [if_pos hempty] at h; exact absurd h (by simp)
    · rw [if_neg hempty] at h
      by_cases hdup : 1 < (duplicate_ids (ec.map (fun e => e.id))).length
      · rw [if_pos hdup] at h; exact absurd h (by simp)
      · rw [if_neg hdup] at h
        have hnodup : (ec.map (fun e => e.id)).Nodup := by
          by_contra hk
          exact hdup ((key _).mpr hk)
        rcases hm : modIdSpacesOf ec with _ | ⟨n, rest⟩
        · rw [hm] at h
          dsimp only at h
          rw [finishContentChecks_ok_shape _ _ _ _ _ _ _ _ h]
          exact hnodup
        · rcases rest with _ | ⟨m, rest2⟩
          · rw [hm] at h
            dsimp only at h
            rw [finishContentChecks_ok_shape _ _ _ _ _ _ _ _ h]
            exact hnodup
          · rw [hm] at h
            dsimp only at h
            exact absurd h (by simp)

/-- C8 witness: the second component of the validation theorem applied
to a concrete accepted document with a single (vanilla) complete
record. -/
theorem C8_duplicate_id_validation_witness :
    read_content none none none ["5|a|k|t".toList] =
      Except.ok { target_lang := none, header_lang_meta := none,
                  header_mod_id_space := none, entries_abbrev := [],
                  entries_complete := [⟨5, "a".toList, "k".toList, "t".toList⟩],
                  content_mod_id_space := none, has_vanilla_entries := true } ∧
    (({ target_lang := none, header_lang_meta := none,
        header_mod_id_space := none, entries_abbrev := [],
        entries_complete := [⟨5, "a".toList, "k".toList, "t".toList⟩],
        content_mod_id_space := none,
        has_vanilla_entries := true } : CsvInputDocument).entries_complete.map
      (fun e => e.id)).Nodup :=
  ⟨by decide, C8_duplicate_id_validation.2 none none none ["5|a|k|t".toList] _ (by decide)⟩

/-- C7 counterexample: the first malformed line of this document is its
second line, so its 1-based line number is 2 — yet the raised message is
"Failed to read line 1: ..." and contains no character `2` at all: the
reported number is the 0-based `enumerate` index, not the 1-based line
number. -/
theorem C7_zero_based_counterexample :
    scanEntries ["ok|fine".toList, "x|b|c|d".toList] 0 =
      Except.error ("Failed to read line 1:\nFailed to parse id column to a number".toList) ∧
    ("Failed to read line 1:\nFailed to parse id column to a number".toList).count '2' = 0 ∧
    ("Failed to read line 1:\nFailed to parse id column to a number".toList).count '1' = 1 := by
  refine ⟨by decide, by decide, by decide⟩

/-- The content scan aborts on the first non-comment line whose parse
fails, reporting `i + j` where `i` is the starting index of the scan and
`j` the position of the offending line. -/
theorem scanEntries_fail_fast (lines : List (List Char)) :
    ∀ (i j : Nat) (hj : j < lines.length) (e : List Char),
      ¬ (lines.get ⟨j, hj⟩).head? = some ';' →
      parse_entry (lines.get ⟨j, hj⟩) = Except.error e →
      (∀ s ∈ lines.take j, s.head? = some ';' ∨ ∃ l, parse_entry s = Except.ok l) →
      scanEntries lines i =
        Except.error ("Failed to read line ".toList ++ Nat.toDigits 10 (i + j)
          ++ ":\n".toList ++ e) := by
  induction lines with
  | nil => intro i j hj; exact absurd hj (by simp)
  | cons line rest ih =>
    intro i j hj e hcom hfail hbefore
    match j with
    | 0 =>
      rw [scanEntries, if_neg (by simpa using hcom)]
      rw [show parse_entry line = Except.error e from hfail]
      rfl
    | k + 1 =>
      rw [List.get_cons_succ] at hcom hfail
      have hbefore' : ∀ s ∈ rest.take k, s.head? = some ';' ∨ ∃ l, parse_entry s = Except.ok l := by
        intro s hs
        exact hbefore s (by rw [List.take_succ_cons]; exact List.mem_cons_of_mem _ hs)
      have harith : i + 1 + k = i + (k + 1) := by omega
      have hrec := ih (i + 1) k (by simpa using hj) e hcom hfail hbefore'
      rw [harith] at hrec
      by_cases hc : line.head? = some ';'
      · rw [scanEntries, if_pos hc]
        exact hrec
      · rcases hbefore line (by rw [List.take_succ_cons]; exact List.mem_cons_self _ _) with hcm | ⟨l0, hok⟩
        · exact absurd hcm hc
        · rw [scanEntries, if_neg hc, hok, hrec]

/-- C7 (amended): the content scan is fail-fast — the first non-comment
line that `parse_entry` rejects aborts the whole scan — and the raised
message reports the line's 0-based `enumerate` index (the claim's
"1-based" is off by one). -/
theorem C7_content_scan_fail_fast (lines : List (List Char)) (j : Nat)
    (hj : j < lines.length) (e : List Char)
    (hcom : ¬ (lines.get ⟨j, hj⟩).head? = some ';')
    (hfail : parse_entry (lines.get ⟨j, hj⟩) = Except.error e)
    (hbefore : ∀ s ∈ lines.take j, s.head? = some ';' ∨ ∃ l, parse_entry s = Except.ok l) :
    scanEntries lines 0 =
      Except.error ("Failed to read line ".toList ++ Nat.toDigits 10 j
        ++ ":\n".toList ++ e) := by
  have h := scanEntries_fail_fast lines 0 j hj e hcom hfail hbefore
  simpa using h

/-- C7 witness: the fail-fast theorem applied to the concrete document
whose second line (0-based index 1) has an unparseable id column. -/
theorem C7_content_scan_fail_fast_witness :
    (1 < ([("ok|fine".toList : List Char), "x|b|c|d".toList]).length) ∧
    scanEntries ["ok|fine".toList, "x|b|c|d".toList] 0 =
      Except.error ("Failed to read line ".toList ++ Nat.toDigits 10 1
        ++ ":\n".toList ++ "Failed to parse id column to a number".toList) :=
  ⟨by decide,
   C7_content_scan_fail_fast ["ok|fine".toList, "x|b|c|d".toList] 1 (by decide)
     ("Failed to parse id column to a number".toList) (by decide) (by decide)
     (by
       intro s hs
       have hs' : s = "ok|fine".toList := by
         simpa using hs
       rw [hs']
       exact Or.inr ⟨CsvLine.abbreviated ⟨"ok".toList, "fine".toList⟩, by decide⟩)⟩

/-- C6 counterexample: a merge with no candidates over the single-line
file `5|ff|k|t` rewrites that line to its canonical serialization
(id right-justified to 10 columns, key_hex to 8), so the original line
is not preserved verbatim. -/
theorem C6_not_verbatim_counterexample :
    merge_abbreviated_entries [] ["5|ff|k|t".toList] =
      Except.ok ["         5|      ff|k|t".toList] ∧
    "         5|      ff|k|t".toList ≠ "5|ff|k|t".toList := by
  refine ⟨by decide, by decide⟩

/-- A successful `parseLines` relates input lines and parsed lines
pointwise. -/
theorem parseLines_ok_forall₂ (lines : List (List Char)) :
    ∀ (i : Nat) (ls : List CsvLine), parseLines lines i = Except.ok ls →
      List.Forall₂ (fun s l => parse_entry s = Except.ok l) lines ls := by
  induction lines with
  | nil =>
    intro i ls h
    rw [parseLines] at h
    cases h
    exact List.Forall₂.nil
  | cons line rest ih =>
    intro i ls h
    rw [parseLines] at h
    rcases hp : parse_entry line with e | l0
    · rw [hp] at h; exact absurd h (by simp)
    · rw [hp] at h
      rcases hr : parseLines rest (i + 1) with e2 | ls0
      · rw [hr] at h; exact absurd h (by simp)
      · rw [hr] at h
        cases h
        exact List.Forall₂.cons hp (ih (i + 1) ls0 hr)

/-- A list is a sublist of any splice of itself. -/
theorem sublist_spliceAt (l : List CsvLine) (i : Nat) (xs : List CsvLine) :
    List.Sublist l (spliceAt l i xs) := by
  rw [spliceAt, List.append_assoc]
  conv_lhs => rw [← List.take_append_drop i l]
  exact (List.sublist_append_right xs (l.drop i)).append_left (l.take i)

/-- `insert_entries` only adds lines: the previous buffer is a sublist
of the new one. -/
theorem insert_entries_sublist (d : CsvMergingDocument)
    (es : List CsvAbbreviatedEntry) (t : List Char) :
    List.Sublist d.file_lines (insert_entries d es t).file_lines := by
  rw [insert_entries]
  cases hf : findSectionRange d.sections d.file_lines.length t with
  | some r =>
    dsimp only [section_range]
    rw [hf]
    exact sublist_spliceAt _ _ _
  | none =>
    dsimp only [section_range]
    rw [hf]
    exact (List.sublist_append_left _ _).trans (sublist_spliceAt _ _ _)

/-- The whole merge loop only adds lines. -/
theorem applyInserts_sublist (entries : List (List Char × List CsvAbbreviatedEntry)) :
    ∀ d : CsvMergingDocument,
      List.Sublist d.file_lines (applyInserts d entries).file_lines := by
  induction entries with
  | nil => intro d; exact List.Sublist.refl _
  | cons p rest ih =>
    intro d
    rw [applyInserts]
    by_cases hp : 0 < p.2.length
    · rw [if_pos hp]
      exact (insert_entries_sublist d p.2 p.1).trans (ih _)
    · rw [if_neg hp]
      exact ih d

/-- Lines whose parse result re-serializes to the line itself are
recovered verbatim by mapping `str` over the parsed buffer. -/
theorem forall₂_canonical_map (lines : List (List Char)) (ls : List CsvLine)
    (hf : List.Forall₂ (fun s l => parse_entry s = Except.ok l) lines ls)
    (hcanon : ∀ s ∈ lines, (parse_entry s).map lineChars = Except.ok s) :
    ls.map lineChars = lines := by
  induction hf with
  | nil => rfl
  | cons hpair hrest ihmap =>
    rename_i s l srest lrest
    rw [List.map_cons]
    have hs := hcanon s (List.mem_cons_self _ _)
    rw [hpair] at hs
    have hl : lineChars l = s := by simpa [Except.map] using hs
    rw [hl, ihmap (fun s2 hs2 => hcanon s2 (List.mem_cons_of_mem _ hs2))]

/-- C6 (amended): a merge writes back every original line re-serialized
from its parsed form — `str(parse_entry(line))`, the canonical column
formatting — in the original relative order, with inserted lines only
added; in particular any original line whose canonical serialization is
itself (comments, abbreviated entries, already-justified complete
entries) is preserved verbatim. -/
theorem C6_merge_preserves_canonical_lines
    (entries : List (List Char × List CsvAbbreviatedEntry))
    (lines out : List (List Char))
    (h : merge_abbreviated_entries entries lines = Except.ok out) :
    (∃ ls, parseLines lines 0 = Except.ok ls ∧
      List.Forall₂ (fun s l => parse_entry s = Except.ok l) lines ls ∧
      List.Sublist (ls.map lineChars) out) ∧
    ((∀ s ∈ lines, (parse_entry s).map lineChars = Except.ok s) →
      List.Sublist lines out) := by
  rw [merge_abbreviated_entries] at h
  rcases ho : openMergingDoc lines with e | d
  · rw [ho] at h; exact absurd h (by simp)
  · rw [ho] at h
    cases h
    rw [openMergingDoc] at ho
    rcases hp : parseLines lines 0 with e | ls
    · rw [hp] at ho; exact absurd ho (by simp)
    · rw [hp] at ho
      cases ho
      have hf := parseLines_ok_forall₂ lines 0 ls hp
      have hsub : List.Sublist (ls.map lineChars) (saveLines (applyInserts
          { file_lines := ls, sections := sectionsOf ls, str_keys := strKeysOf ls }
          entries)) := by
        rw [saveLines]
        exact List.Sublist.map lineChars (applyInserts_sublist entries
          { file_lines := ls, sections := sectionsOf ls, str_keys := strKeysOf ls })
      refine ⟨⟨ls, rfl, hf, hsub⟩, ?_⟩
      intro hcanon
      rw [← forall₂_canonical_map lines ls hf hcanon]
      exact hsub

/-- C6 witness: the amended theorem applied to an already-canonical file
with no candidates, whose lines are therefore preserved verbatim. -/
theorem C6_merge_preserves_canonical_lines_witness :
    merge_abbreviated_entries [] [";section=menu".toList, "a|b".toList] =
      Except.ok [";section=menu".toList, "a|b".toList] ∧
    List.Sublist [";section=menu".toList, "a|b".toList]
      [";section=menu".toList, "a|b".toList] :=
  ⟨by decide,
   (C6_merge_preserves_canonical_lines [] [";section=menu".toList, "a|b".toList]
     [";section=menu".toList, "a|b".toList] (by decide)).2 (by decide)⟩

/-- Specification of the skip loop: with enough fuel (the card of the
working set always suffices) the returned counter is the first value
`≥ c` outside the set, and the returned set is the working set minus the
interval of consumed values. -/
theorem skipUsedGo_spec (fuel : Nat) :
    ∀ (s : Finset Int) (c : Int), s.card ≤ fuel →
      c ≤ (skipUsedGo fuel s c).2 ∧
      (skipUsedGo fuel s c).2 ∉ s ∧
      (∀ v, c ≤ v → v < (skipUsedGo fuel s c).2 → v ∈ s) ∧
      (skipUsedGo fuel s c).1 = s \ Finset.Ico c (skipUsedGo fuel s c).2 := by
  induction fuel with
  | zero =>
    intro s c hcard
    have hs : s = ∅ := Finset.card_eq_zero.mp (Nat.le_antisymm hcard (Nat.zero_le _))
    subst hs
    rw [skipUsedGo]
    refine ⟨le_refl _, by simp, ?_, by simp⟩
    intro v hv1 hv2
    omega
  | succ n ih =>
    intro s c hcard
    by_cases hc : c ∈ s
    · rw [skipUsedGo, if_pos hc]
      have hcard2 : (s.erase c).card ≤ n := by
        have := Finset.card_erase_of_mem hc
        omega
      obtain ⟨h1, h2, h3, h4⟩ := ih (s.erase c) (c + 1) hcard2
      refine ⟨by omega, ?_, ?_, ?_⟩
      · intro hmem
        exact h2 (Finset.mem_erase.mpr ⟨by omega, hmem⟩)
      · intro v hv1 hv2
        rcases eq_or_lt_of_le hv1 with heq | hlt
        · rw [← heq]; exact hc
        · exact Finset.mem_of_mem_erase (h3 v (by omega) hv2)
      · rw [h4]
        ext x
        simp only [Finset.mem_sdiff, Finset.mem_erase, Finset.mem_Ico]
        constructor
        · rintro ⟨⟨hne, hxs⟩, hni⟩
          exact ⟨hxs, by omega⟩
        · rintro ⟨hxs, hni⟩
          have hx1 : x ≠ c := by
            intro hxe
            subst hxe
            exact hni ⟨le_refl _, by omega⟩
          exact ⟨⟨hx1, hxs⟩, by omega⟩
    · rw [skipUsedGo, if_neg hc]
      refine ⟨le_refl _, hc, ?_, by simp⟩
      intro v hv1 hv2
      omega

/-- `skipUsed` satisfies the skip-loop specification. -/
theorem skipUsed_spec (s : Finset Int) (c : Int) :
    c ≤ (skipUsed s c).2 ∧
    (skipUsed s c).2 ∉ s ∧
    (∀ v, c ≤ v → v < (skipUsed s c).2 → v ∈ s) ∧
    (skipUsed s c).1 = s \ Finset.Ico c (skipUsed s c).2 :=
  skipUsedGo_spec s.card s c (le_refl _)

/-- Core invariants of the allocation loop: synthesized ids are at least
the running counter, never collide with the original used-id set,
strictly increase along the output, and the output completes the input
entries in order with empty key_hex. -/
theorem allocate_spec (s0 : Finset Int) :
    ∀ (es : List CsvAbbreviatedEntry) (s : Finset Int) (c : Int),
      s ⊆ s0 → (∀ x ∈ s0, x ∉ s → x < c) →
      (∀ e2 ∈ allocate es s c, c ≤ e2.id ∧ e2.id ∉ s0) ∧
      List.Pairwise (fun a b => a.id < b.id) (allocate es s c) ∧
      List.Forall₂ (fun (a : CsvAbbreviatedEntry) (b : CsvCompleteEntry) =>
        b.key_str = a.key_str ∧ b.text = a.text ∧ b.key_hex = []) es (allocate es s c) := by
  intro es
  induction es with
  | nil =>
    intro s c _ _
    refine ⟨by simp [allocate], by simp [allocate], by simp [allocate]⟩
  | cons e rest ih =>
    intro s c hsub hout
    obtain ⟨h1, h2, h3, h4⟩ := skipUsed_spec s c
    have hsub2 : (skipUsed s c).1 ⊆ s0 := by
      rw [h4]
      exact (Finset.sdiff_subset).trans hsub
    have hout2 : ∀ x ∈ s0, x ∉ (skipUsed s c).1 → x < (skipUsed s c).2 + 1 := by
      intro x hx0 hxn
      rw [h4, Finset.mem_sdiff, Finset.mem_Ico] at hxn
      push_neg at hxn
      by_cases hxs : x ∈ s
      · have := hxn hxs
        omega
      · have := hout x hx0 hxs
        omega
    have hid : (skipUsed s c).2 ∉ s0 := by
      intro hmem
      by_cases hxs : (skipUsed s c).2 ∈ s
      · exact h2 hxs
      · have := hout _ hmem hxs
        omega
    obtain ⟨ihA, ihB, ihC⟩ := ih (skipUsed s c).1 ((skipUsed s c).2 + 1) hsub2 hout2
    simp only [allocate]
    refine ⟨?_, ?_, ?_⟩
    · intro e2 he2
      rcases List.mem_cons.mp he2 with heq | htail
      · rw [heq]
        exact ⟨h1, hid⟩
      · have := ihA e2 htail
        exact ⟨by omega, this.2⟩
    · refine List.Pairwise.cons ?_ ihB
      intro b hb
      have := (ihA b hb).1
      simp only [CsvAbbreviatedEntry.into_complete]
      omega
    · exact List.Forall₂.cons ⟨rfl, rfl, rfl⟩ ihC

/-- Block bound for the allocation loop: when the entries still to
allocate plus the used ids lying in the window ahead of the counter fit
into the remaining budget `b` (with `c + b` the end of the window),
every synthesized id stays below the window end. -/
theorem allocate_upper (climit : Int) :
    ∀ (es : List CsvAbbreviatedEntry) (s : Finset Int) (c : Int) (b : Nat),
      c + b = climit →
      es.length + (s.filter (fun x => c ≤ x ∧ x < climit)).card ≤ b →
      ∀ e2 ∈ allocate es s c, e2.id < climit := by
  intro es
  induction es with
  | nil =>
    intro s c b hb hcount e2 he2
    simp [allocate] at he2
  | cons e rest ih =>
    intro s c b hb hcount e2 he2
    obtain ⟨h1, h2, h3, h4⟩ := skipUsed_spec s c
    have hc2 : (skipUsed s c).2 < climit := by
      by_contra hge
      push_neg at hge
      have hsubf : Finset.Ico c climit ⊆ s.filter (fun x => c ≤ x ∧ x < climit) := by
        intro v hv
        rw [Finset.mem_Ico] at hv
        rw [Finset.mem_filter]
        exact ⟨h3 v hv.1 (by omega), hv.1, hv.2⟩
      have hcard := Finset.card_le_card hsubf
      rw [Int.card_Ico] at hcard
      rw [List.length_cons] at hcount
      omega
    simp only [allocate] at he2
    rcases List.mem_cons.mp he2 with heq | htail
    · rw [heq]
      exact hc2
    · have hd1 : ((skipUsed s c).2 - c).toNat < b := by omega
      apply ih (skipUsed s c).1 ((skipUsed s c).2 + 1)
        (b - ((skipUsed s c).2 - c).toNat - 1) (by omega) ?_ e2 htail
      have hsub2 : ((skipUsed s c).1.filter
            (fun x => (skipUsed s c).2 + 1 ≤ x ∧ x < climit)) ∪ Finset.Ico c (skipUsed s c).2
          ⊆ s.filter (fun x => c ≤ x ∧ x < climit) := by
        intro x hx
        rw [Finset.mem_union] at hx
        rcases hx with hx | hx
        · rw [Finset.mem_filter] at hx ⊢
          have hxs : x ∈ s := by
            have := hx.1
            rw [h4, Finset.mem_sdiff] at this
            exact this.1
          exact ⟨hxs, by omega, hx.2.2⟩
        · rw [Finset.mem_Ico] at hx
          rw [Finset.mem_filter]
          exact ⟨h3 x hx.1 hx.2, hx.1, by omega⟩
      have hdisj : Disjoint ((skipUsed s c).1.filter
          (fun x => (skipUsed s c).2 + 1 ≤ x ∧ x < climit)) (Finset.Ico c (skipUsed s c).2) := by
        rw [Finset.disjoint_left]
        intro x hx1 hx2
        rw [Finset.mem_filter] at hx1
        rw [Finset.mem_Ico] at hx2
        omega
      have hcardle := Finset.card_le_card hsub2
      rw [Finset.card_union_of_disjoint hdisj, Int.card_Ico] at hcardle
      rw [List.length_cons] at hcount
      omega

/-- C4: when the composer resolves a sub-space `S` and abbreviated
entries exist, it completes them via the counter walk from base
`2110000000 + S * 1000`; every synthesized id is at least the base, the
ids strictly increase (hence are unique), none collides with a
complete-record id already in the document, each abbreviated entry is
completed in order with an empty synthesized key_hex, the ids stay
inside the 1000-id block whenever the entries fit into it (the
"ignoring overflow" proviso), and the composed output is a permutation
of these completions together with the original complete entries. -/
theorem C4_id_allocation (input : CsvInputDocument) (S : Int)
    (hres : pyOrInt input.header_mod_id_space input.content_mod_id_space = some S)
    (habbr : 0 < input.entries_abbrev.length) :
    allocated_entries input =
      allocate input.entries_abbrev (idSet input.entries_complete)
        (MOD_ID_RANGE_start + S * 1000) ∧
    List.Pairwise (fun a b => a.id < b.id) (allocated_entries input) ∧
    (∀ e ∈ allocated_entries input,
      MOD_ID_RANGE_start + S * 1000 ≤ e.id ∧
      e.id ∉ input.entries_complete.map (fun e2 => e2.id)) ∧
    List.Forall₂ (fun (a : CsvAbbreviatedEntry) (b : CsvCompleteEntry) =>
        b.key_str = a.key_str ∧ b.text = a.text ∧ b.key_hex = [])
      input.entries_abbrev (allocated_entries input) ∧
    (input.entries_abbrev.length +
        ((idSet input.entries_complete).filter
          (fun x => MOD_ID_RANGE_start + S * 1000 ≤ x ∧
            x < MOD_ID_RANGE_start + S * 1000 + 1000)).card ≤ 1000 →
      ∀ e ∈ allocated_entries input, e.id < MOD_ID_RANGE_start + S * 1000 + 1000) ∧
    List.Perm (prepare_output_csv input).entries
      (allocated_entries input ++ input.entries_complete) := by
  have halloc : allocated_entries input =
      allocate input.entries_abbrev (idSet input.entries_complete)
        (MOD_ID_RANGE_start + S * 1000) := by
    rw [allocated_entries, hres]
    dsimp only
    rw [if_pos habbr]
  obtain ⟨hA, hB, hC⟩ := allocate_spec (idSet input.entries_complete)
    input.entries_abbrev (idSet input.entries_complete)
    (MOD_ID_RANGE_start + S * 1000) (Finset.Subset.refl _)
    (fun x hx hnx => absurd hx hnx)
  refine ⟨halloc, ?_, ?_, ?_, ?_, ?_⟩
  · rw [halloc]; exact hB
  · rw [halloc]
    intro e he
    obtain ⟨hge, hnot⟩ := hA e he
    refine ⟨hge, ?_⟩
    intro hmem
    exact hnot (by rw [idSet]; exact List.mem_toFinset.mpr hmem)
  · rw [halloc]; exact hC
  · rw [halloc]
    intro hfit
    exact allocate_upper (MOD_ID_RANGE_start + S * 1000 + 1000)
      input.entries_abbrev (idSet input.entries_complete)
      (MOD_ID_RANGE_start + S * 1000) 1000 (by norm_num) (by exact_mod_cast hfit)
  · rw [prepare_output_csv]
    exact List.perm_insertionSort _ _

/-- C4 witness: the allocation theorem applied to the spec's scenario —
header sub-space 42, one existing complete record with id 2110042005 and
one abbreviated entry — discharging both hypotheses. -/
theorem C4_id_allocation_witness :
    pyOrInt scenarioDoc42.header_mod_id_space scenarioDoc42.content_mod_id_space = some 42 ∧
    0 < scenarioDoc42.entries_abbrev.length ∧
    (∀ e ∈ allocated_entries scenarioDoc42,
      MOD_ID_RANGE_start + 42 * 1000 ≤ e.id ∧
      e.id ∉ scenarioDoc42.entries_complete.map (fun e2 => e2.id)) :=
  ⟨by decide, by decide,
   (C4_id_allocation scenarioDoc42 42 (by decide) (by decide)).2.2.1⟩

/-- `insert_entries` leaves the tracked key set untouched. -/
theorem insert_entries_str_keys_eq (d : CsvMergingDocument)
    (es : List CsvAbbreviatedEntry) (t : List Char) :
    (insert_entries d es t).str_keys = d.str_keys := by
  cases hf : findSectionRange d.sections d.file_lines.length t <;>
    simp [insert_entries, section_range, hf]

/-- A found section range means the target name is among the tracked
sections. -/
theorem findSectionRange_some_name (secs : List (List Char × Nat)) :
    ∀ (flen : Nat) (t : List Char) (r : Nat × Nat),
      findSectionRange secs flen t = some r → ∃ q ∈ secs, q.1 = t := by
  induction secs with
  | nil => intro flen t r h; rw [findSectionRange.eq_def] at h; simp at h
  | cons q rest ih =>
    intro flen t r h
    rw [findSectionRange.eq_def] at h
    dsimp only at h
    by_cases hq : q.1 = t
    · exact ⟨q, List.mem_cons_self _ _, hq⟩
    · rw [if_neg hq] at h
      obtain ⟨q2, hq2, hname⟩ := ih flen t r h
      exact ⟨q2, List.mem_cons_of_mem _ hq2, hname⟩

/-- A tracked section name is always found. -/
theorem findSectionRange_isSome_of_name (secs : List (List Char × Nat)) :
    ∀ (flen : Nat) (t : List Char), (∃ q ∈ secs, q.1 = t) →
      ∃ r, findSectionRange secs flen t = some r := by
  induction secs with
  | nil =>
    intro flen t h
    obtain ⟨q, hq, _⟩ := h
    exact absurd hq (by simp)
  | cons q rest ih =>
    intro flen t h
    by_cases hq : q.1 = t
    · rcases rest with _ | ⟨q2, rest2⟩
      · exact ⟨(q.2 + 1, flen), by rw [findSectionRange.eq_def]; dsimp only; rw [if_pos hq]⟩
      · exact ⟨(q.2 + 1, q2.2), by rw [findSectionRange.eq_def]; dsimp only; rw [if_pos hq]⟩
    · obtain ⟨q2, hq2, hname⟩ := h
      rcases List.mem_cons.mp hq2 with heq | htail
      · rw [heq] at hname; exact absurd hname hq
      · obtain ⟨r, hr⟩ := ih flen t ⟨q2, htail, hname⟩
        refine ⟨r, ?_⟩
        rw [findSectionRange.eq_def]
        dsimp only
        rw [if_neg hq]
        exact hr

/-- Decomposition of the lines of an insertion result: an old line, an
inserted candidate, or the freshly appended section marker. -/
theorem mem_insert_entries (d : CsvMergingDocument) (es : List CsvAbbreviatedEntry)
    (t : List Char) (l : CsvLine) (h : l ∈ (insert_entries d es t).file_lines) :
    l ∈ d.file_lines ∨ (∃ e ∈ es, l = CsvLine.abbreviated e) ∨
      l = CsvLine.attr ⟨"section".toList, t⟩ := by
  cases hf : findSectionRange d.sections d.file_lines.length t with
  | some r =>
    simp only [insert_entries, section_range, hf] at h
    rw [spliceAt] at h
    rcases List.mem_append.mp h with h1 | h2
    · rcases List.mem_append.mp h1 with h3 | h4
      · exact Or.inl (List.take_subset _ _ h3)
      · obtain ⟨e, he, heq⟩ := List.mem_map.mp h4
        exact Or.inr (Or.inl ⟨e, List.mem_of_mem_filter he, heq.symm⟩)
    · exact Or.inl (List.drop_subset _ _ h2)
  | none =>
    simp only [insert_entries, section_range, hf] at h
    rw [spliceAt] at h
    rcases List.mem_append.mp h with h1 | h2
    · rcases List.mem_append.mp h1 with h3 | h4
      · have := List.take_subset _ _ h3
        rcases List.mem_append.mp this with h5 | h6
        · exact Or.inl h5
        · exact Or.inr (Or.inr (by simpa using h6))
      · obtain ⟨e, he, heq⟩ := List.mem_map.mp h4
        exact Or.inr (Or.inl ⟨e, List.mem_of_mem_filter he, heq.symm⟩)
    · have := List.drop_subset _ _ h2
      rcases List.mem_append.mp this with h5 | h6
      · exact Or.inl h5
      · exact Or.inr (Or.inr (by simpa using h6))

/-- Old lines persist through an insertion. -/
theorem insert_entries_mem_mono (d : CsvMergingDocument)
    (es : List CsvAbbreviatedEntry) (t : List Char) (l : CsvLine)
    (h : l ∈ d.file_lines) : l ∈ (insert_entries d es t).file_lines :=
  (insert_entries_sublist d es t).subset h

/-- Old lines persist through the whole merge loop. -/
theorem applyInserts_mem_mono (entries : List (List Char × List CsvAbbreviatedEntry))
    (d : CsvMergingDocument) (l : CsvLine) (h : l ∈ d.file_lines) :
    l ∈ (applyInserts d entries).file_lines :=
  (applyInserts_sublist entries d).subset h

/-- A candidate whose key is not yet tracked ends up in the buffer. -/
theorem insert_entries_inserted (d : CsvMergingDocument)
    (es : List CsvAbbreviatedEntry) (t : List Char) (e : CsvAbbreviatedEntry)
    (he : e ∈ es) (hk : e.key_str ∉ d.str_keys) :
    CsvLine.abbreviated e ∈ (insert_entries d es t).file_lines := by
  have hkept : e ∈ es.filter (fun e2 => decide (e2.key_str ∉ d.str_keys)) :=
    List.mem_filter.mpr ⟨he, by simpa using hk⟩
  have hmap : CsvLine.abbreviated e ∈
      (es.filter (fun e2 => decide (e2.key_str ∉ d.str_keys))).map CsvLine.abbreviated :=
    List.mem_map.mpr ⟨e, hkept, rfl⟩
  cases hf : findSectionRange d.sections d.file_lines.length t with
  | some r =>
    simp only [insert_entries, section_range, hf]
    rw [spliceAt]
    exact List.mem_append.mpr (Or.inl (List.mem_append.mpr (Or.inr hmap)))
  | none =>
    simp only [insert_entries, section_range, hf]
    rw [spliceAt]
    exact List.mem_append.mpr (Or.inl (List.mem_append.mpr (Or.inr hmap)))

/-- After inserting into a section (whose marker either existed, by
soundness of the tracked sections, or was appended), the marker line is
in the buffer. -/
theorem insert_entries_marker (d : CsvMergingDocument)
    (es : List CsvAbbreviatedEntry) (t : List Char) (hs : SectionsSound d) :
    CsvLine.attr ⟨"section".toList, t⟩ ∈ (insert_entries d es t).file_lines := by
  cases hf : findSectionRange d.sections d.file_lines.length t with
  | some r =>
    obtain ⟨q, hq, hname⟩ := findSectionRange_some_name d.sections
      d.file_lines.length t r hf
    have hm := hs q hq
    rw [hname] at hm
    exact insert_entries_mem_mono d es t _ hm
  | none =>
    simp only [insert_entries, section_range, hf]
    rw [spliceAt]
    refine List.mem_append.mpr (Or.inl (List.mem_append.mpr (Or.inl ?_)))
    have hlen : d.file_lines.length + 1 =
        (d.file_lines ++ [CsvLine.attr { key := "section".toList, value := t }]).length := by
      simp
    rw [hlen, List.take_length]
    simp

/-- Round-tripping of all buffer lines is preserved by an insertion of
round-tripping candidates. -/
theorem insert_entries_RT (d : CsvMergingDocument) (es : List CsvAbbreviatedEntry)
    (t : List Char) (hd : RTLines d)
    (hes : ∀ e ∈ es, lineRoundtrips (CsvLine.abbreviated e))
    (ht : lineRoundtrips (CsvLine.attr ⟨"section".toList, t⟩)) :
    RTLines (insert_entries d es t) := by
  intro l hl
  rcases mem_insert_entries d es t l hl with h1 | ⟨e, he, heq⟩ | h3
  · exact hd l h1
  · rw [heq]; exact hes e he
  · rw [h3]; exact ht

/-- Key soundness is preserved by an insertion. -/
theorem insert_entries_keysSound (d : CsvMergingDocument)
    (es : List CsvAbbreviatedEntry) (t : List Char) (hd : KeysSound d) :
    KeysSound (insert_entries d es t) := by
  intro k hk
  rw [insert_entries_str_keys_eq] at hk
  obtain ⟨l, hl, hkey⟩ := hd k hk
  exact ⟨l, insert_entries_mem_mono d es t l hl, hkey⟩

/-- Section soundness is preserved by an insertion. -/
theorem insert_entries_sectionsSound (d : CsvMergingDocument)
    (es : List CsvAbbreviatedEntry) (t : List Char) (hd : SectionsSound d) :
    SectionsSound (insert_entries d es t) := by
  intro q hq
  cases hf : findSectionRange d.sections d.file_lines.length t with
  | some r =>
    have hq2 : q ∈ d.sections := by
      simpa [insert_entries, section_range, hf] using hq
    exact insert_entries_mem_mono d es t _ (hd q hq2)
  | none =>
    have hq2 : q ∈ d.sections ++ [(t, d.file_lines.length)] := by
      simpa [insert_entries, section_range, hf] using hq
    rcases List.mem_append.mp hq2 with hold | hnew
    · exact insert_entries_mem_mono d es t _ (hd q hold)
    · have hqt : q.1 = t := by
        have : q = (t, d.file_lines.length) := by simpa using hnew
        rw [this]
      rw [hqt]
      exact insert_entries_marker d es t hd

/-- The post-state of the merge loop: all lines round-trip, and for each
processed section with candidates, every candidate's key is keyed by some
buffer line and the section's marker line is in the buffer. -/
theorem applyInserts_props (entries : List (List Char × List CsvAbbreviatedEntry)) :
    ∀ d : CsvMergingDocument, RTLines d → KeysSound d → SectionsSound d →
      (∀ p ∈ entries, (∀ e ∈ p.2, lineRoundtrips (CsvLine.abbreviated e)) ∧
        lineRoundtrips (CsvLine.attr ⟨"section".toList, p.1⟩)) →
      RTLines (applyInserts d entries) ∧
      (∀ p ∈ entries, 0 < p.2.length →
        (∀ e ∈ p.2, ∃ l ∈ (applyInserts d entries).file_lines,
          lineKey l = some e.key_str) ∧
        CsvLine.attr ⟨"section".toList, p.1⟩ ∈ (applyInserts d entries).file_lines) := by
  induction entries with
  | nil =>
    intro d hRT _ _ _
    rw [applyInserts]
    exact ⟨hRT, by simp⟩
  | cons p rest ih =>
    intro d hRT hKeys hSecs hcands
    obtain ⟨hp, hprest⟩ : ((∀ e ∈ p.2, lineRoundtrips (CsvLine.abbreviated e)) ∧
        lineRoundtrips (CsvLine.attr ⟨"section".toList, p.1⟩)) ∧
        (∀ q ∈ rest, (∀ e ∈ q.2, lineRoundtrips (CsvLine.abbreviated e)) ∧
          lineRoundtrips (CsvLine.attr ⟨"section".toList, q.1⟩)) :=
      ⟨hcands p (List.mem_cons_self _ _),
       fun q hq => hcands q (List.mem_cons_of_mem _ hq)⟩
    rw [applyInserts]
    by_cases hlen : 0 < p.2.length
    · rw [if_pos hlen]
      have hRT2 := insert_entries_RT d p.2 p.1 hRT hp.1 hp.2
      have hKeys2 := insert_entries_keysSound d p.2 p.1 hKeys
      have hSecs2 := insert_entries_sectionsSound d p.2 p.1 hSecs
      obtain ⟨ihRT, ihrest⟩ := ih (insert_entries d p.2 p.1) hRT2 hKeys2 hSecs2 hprest
      refine ⟨ihRT, ?_⟩
      intro q hq hqlen
      rcases List.mem_cons.mp hq with heq | htail
      · subst heq
        constructor
        · intro e he
          by_cases hk : e.key_str ∈ d.str_keys
          · obtain ⟨l, hl, hkey⟩ := hKeys _ hk
            exact ⟨l, applyInserts_mem_mono rest _ l
              (insert_entries_mem_mono d q.2 q.1 l hl), hkey⟩
          · refine ⟨CsvLine.abbreviated e, ?_, rfl⟩
            exact applyInserts_mem_mono rest _ _
              (insert_entries_inserted d q.2 q.1 e he hk)
        · exact applyInserts_mem_mono rest _ _
            (insert_entries_marker d q.2 q.1 hSecs)
      · exact ihrest q htail hqlen
    · rw [if_neg hlen]
      obtain ⟨ihRT, ihrest⟩ := ih d hRT hKeys hSecs hprest
      refine ⟨ihRT, ?_⟩
      intro q hq hqlen
      rcases List.mem_cons.mp hq with heq | htail
      · subst heq
        exact absurd hqlen hlen
      · exact ihrest q htail hqlen

/-- Re-reading the serialized buffer recovers the buffer when every line
round-trips. -/
theorem parseLines_roundtrip (ls : List CsvLine) :
    ∀ i : Nat, (∀ l ∈ ls, lineRoundtrips l) →
      parseLines (ls.map lineChars) i = Except.ok ls := by
  induction ls with
  | nil => intro i _; rw [List.map_nil, parseLines]
  | cons l rest ih =>
    intro i hrt
    rw [List.map_cons, parseLines]
    rw [hrt l (List.mem_cons_self _ _)]
    rw [ih (i + 1) (fun l2 hl2 => hrt l2 (List.mem_cons_of_mem _ hl2))]

/-- A keyed line in the buffer puts its key into the tracked key set. -/
theorem mem_strKeysOf (ls : List CsvLine) (k : List Char)
    (h : ∃ l ∈ ls, lineKey l = some k) : k ∈ strKeysOf ls := by
  rw [strKeysOf, List.mem_toFinset, List.mem_filterMap]
  exact h

/-- A section marker line in the buffer is recorded (with its index)
among the recomputed sections. -/
theorem sectionsOf_name_mem (ls : List CsvLine) (v : List Char)
    (h : CsvLine.attr ⟨"section".toList, v⟩ ∈ ls) :
    ∃ q ∈ sectionsOf ls, q.1 = v := by
  obtain ⟨i, hi⟩ := List.mem_iff_getElem?.mp h
  refine ⟨(v, i), ?_, rfl⟩
  rw [sectionsOf, List.mem_filterMap]
  refine ⟨(i, CsvLine.attr ⟨"section".toList, v⟩), ?_, by simp⟩
  rw [List.mem_enum_iff_getElem?]
  exact hi

/-- Every recomputed section entry is witnessed by a marker line. -/
theorem sectionsOf_sound (ls : List CsvLine) (q : List Char × Nat)
    (h : q ∈ sectionsOf ls) : CsvLine.attr ⟨"section".toList, q.1⟩ ∈ ls := by
  rw [sectionsOf, List.mem_filterMap] at h
  obtain ⟨p, hp, hf⟩ := h
  have hmem : p.2 ∈ ls := by
    rw [List.mem_enum_iff_getElem?] at hp
    exact List.mem_iff_getElem?.mpr ⟨p.1, hp⟩
  rcases p with ⟨i, l⟩
  cases l with
  | attr a =>
    dsimp only at hf
    by_cases hk : a.key = "section".toList
    · rw [if_pos hk] at hf
      have hq : q = (a.value, i) := by
        exact (Option.some.inj hf).symm
      rw [hq]
      have ha : a = ⟨"section".toList, a.value⟩ := by
        rcases a with ⟨ak, av⟩
        rw [show ak = "section".toList from hk]
      rw [← ha]
      exact hmem
    · rw [if_neg hk] at hf
      cases hf
  | plain s => cases hf
  | abbreviated e => cases hf
  | complete e => cases hf

/-- Right-to-left member extraction from a pointwise relation. -/
theorem forall₂_exists_left (R : List Char → CsvLine → Prop) :
    ∀ (as : List (List Char)) (bs : List CsvLine), List.Forall₂ R as bs →
      ∀ b ∈ bs, ∃ a ∈ as, R a b := by
  intro as bs h
  induction h with
  | nil => intro b hb; exact absurd hb (by simp)
  | cons hpair hrest ihf =>
    intro b hb
    rcases List.mem_cons.mp hb with heq | htail
    · rename_i a0 b0 arest brest
      exact ⟨a0, List.mem_cons_self _ _, heq ▸ hpair⟩
    · obtain ⟨a, ha, hr⟩ := ihf b htail
      exact ⟨a, List.mem_cons_of_mem _ ha, hr⟩

/-- Inserting fully suppressed candidates into an already-present
section changes nothing. -/
theorem insert_entries_id (d : CsvMergingDocument) (es : List CsvAbbreviatedEntry)
    (t : List Char) (hkeys : ∀ e ∈ es, e.key_str ∈ d.str_keys)
    (hsect : ∃ q ∈ d.sections, q.1 = t) :
    insert_entries d es t = d := by
  obtain ⟨r, hr⟩ := findSectionRange_isSome_of_name d.sections d.file_lines.length t hsect
  have hkept : es.filter (fun e => decide (e.key_str ∉ d.str_keys)) = [] := by
    rw [List.filter_eq_nil_iff]
    intro e he
    simpa using hkeys e he
  simp only [insert_entries, section_range, hr, hkept]
  simp [spliceAt]

/-- The merge loop is the identity when every candidate key is tracked
and every target section exists. -/
theorem applyInserts_id (entries : List (List Char × List CsvAbbreviatedEntry)) :
    ∀ d : CsvMergingDocument,
      (∀ p ∈ entries, 0 < p.2.length →
        (∀ e ∈ p.2, e.key_str ∈ d.str_keys) ∧ (∃ q ∈ d.sections, q.1 = p.1)) →
      applyInserts d entries = d := by
  induction entries with
  | nil => intro d _; rw [applyInserts]
  | cons p rest ih =>
    intro d hall
    rw [applyInserts]
    by_cases hlen : 0 < p.2.length
    · rw [if_pos hlen]
      obtain ⟨hkeys, hsect⟩ := hall p (List.mem_cons_self _ _) hlen
      rw [insert_entries_id d p.2 p.1 hkeys hsect]
      exact ih d (fun q hq => hall q (List.mem_cons_of_mem _ hq))
    · rw [if_neg hlen]
      exact ih d (fun q hq => hall q (List.mem_cons_of_mem _ hq))

/-- C3 counterexample: for the candidate key `" k"` (leading space) over
the one-marker file `;section=menu`, the first merge writes the line
`" k|t"`, which on re-read parses with the key stripped to `"k"`; the
candidate key `" k"` is then not among the tracked keys, so the second
merge of the same map inserts it again (and rewrites the earlier line
canonically): merging twice is not identical to merging once. -/
theorem C3_not_idempotent_counterexample :
    merge_abbreviated_entries [("menu".toList, [⟨" k".toList, "t".toList⟩])]
      [";section=menu".toList] =
      Except.ok [";section=menu".toList, " k|t".toList] ∧
    merge_abbreviated_entries [("menu".toList, [⟨" k".toList, "t".toList⟩])]
      [";section=menu".toList, " k|t".toList] =
      Except.ok [";section=menu".toList, "k|t".toList, " k|t".toList] ∧
    [";section=menu".toList, "k|t".toList, " k|t".toList] ≠
      [";section=menu".toList, " k|t".toList] := by
  refine ⟨by decide, by decide, by decide⟩

/-- C3 (amended): merging the same candidate map twice produces the same
file as merging it once, provided every line of the original file whose
parse succeeds round-trips through `str` (true of every file the tool
reads or writes: canonical complete entries, abbreviated entries,
comments, attributes), and the candidate entries and section names
serialize to lines that parse back to themselves (true of scanner
output: keys without `|`, `=`, `;` or surrounding whitespace).  Without
that proviso duplicate suppression can fail, as the counterexample
shows. -/
theorem C3_merge_idempotent (entries : List (List Char × List CsvAbbreviatedEntry))
    (lines out : List (List Char))
    (hlines : ∀ s ∈ lines, sourceRoundtrips s)
    (hcands : ∀ p ∈ entries,
      (∀ e ∈ p.2, lineRoundtrips (CsvLine.abbreviated e)) ∧
      lineRoundtrips (CsvLine.attr ⟨"section".toList, p.1⟩))
    (h : merge_abbreviated_entries entries lines = Except.ok out) :
    merge_abbreviated_entries entries out = Except.ok out := by
  rw [merge_abbreviated_entries] at h
  rcases ho : openMergingDoc lines with e | d0
  · rw [ho] at h; exact absurd h (by simp)
  · rw [ho] at h
    cases h
    rw [openMergingDoc] at ho
    rcases hp : parseLines lines 0 with e | ls
    · rw [hp] at ho; exact absurd ho (by simp)
    · rw [hp] at ho
      cases ho
      have hF := parseLines_ok_forall₂ lines 0 ls hp
      have hRT0 : RTLines ⟨ls, sectionsOf ls, strKeysOf ls⟩ := by
        intro l hl
        obtain ⟨s, hs, hR⟩ := forall₂_exists_left _ lines ls hF l hl
        exact hlines s hs l hR
      have hKeys0 : KeysSound ⟨ls, sectionsOf ls, strKeysOf ls⟩ := by
        intro k hk
        have hk2 : k ∈ (ls.filterMap lineKey).toFinset := hk
        rw [List.mem_toFinset, List.mem_filterMap] at hk2
        exact hk2
      have hSecs0 : SectionsSound ⟨ls, sectionsOf ls, strKeysOf ls⟩ := by
        intro q hq
        exact sectionsOf_sound ls q hq
      obtain ⟨hRTD, hProps⟩ :=
        applyInserts_props entries _ hRT0 hKeys0 hSecs0 hcands
      have hout : openMergingDoc
          (saveLines (applyInserts ⟨ls, sectionsOf ls, strKeysOf ls⟩ entries)) =
          Except.ok
            ⟨(applyInserts ⟨ls, sectionsOf ls, strKeysOf ls⟩ entries).file_lines,
             sectionsOf (applyInserts ⟨ls, sectionsOf ls, strKeysOf ls⟩ entries).file_lines,
             strKeysOf (applyInserts ⟨ls, sectionsOf ls, strKeysOf ls⟩ entries).file_lines⟩ := by
        rw [openMergingDoc, saveLines]
        rw [parseLines_roundtrip _ 0 hRTD]
      rw [merge_abbreviated_entries, hout]
      dsimp only
      have hid : applyInserts
          ⟨(applyInserts ⟨ls, sectionsOf ls, strKeysOf ls⟩ entries).file_lines,
           sectionsOf (applyInserts ⟨ls, sectionsOf ls, strKeysOf ls⟩ entries).file_lines,
           strKeysOf (applyInserts ⟨ls, sectionsOf ls, strKeysOf ls⟩ entries).file_lines⟩
          entries =
          ⟨(applyInserts ⟨ls, sectionsOf ls, strKeysOf ls⟩ entries).file_lines,
           sectionsOf (applyInserts ⟨ls, sectionsOf ls, strKeysOf ls⟩ entries).file_lines,
           strKeysOf (applyInserts ⟨ls, sectionsOf ls, strKeysOf ls⟩ entries).file_lines⟩ := by
        apply applyInserts_id
        intro p hpm hplen
        obtain ⟨hkeys, hmarker⟩ := hProps p hpm hplen
        constructor
        · intro e2 he2
          exact mem_strKeysOf _ e2.key_str (hkeys e2 he2)
        · exact sectionsOf_name_mem _ p.1 hmarker
      rw [hid]
      rfl

/-- C3 witness: a concrete merge — one key already on disk, one new key,
one new section — applied twice. -/
theorem C3_merge_idempotent_witness :
    (∀ s ∈ [";idspace=????".toList, ";section=menu".toList, "k1|t1".toList],
      sourceRoundtrips s) ∧
    merge_abbreviated_entries
      [("menu".toList, [⟨"k1".toList, "t1".toList⟩, ⟨"k2".toList, "t2".toList⟩]),
       ("scripts".toList, [⟨"s1".toList, "MISSING_LOCALISATION".toList⟩])]
      [";idspace=????".toList, ";section=menu".toList, "k1|t1".toList] =
      Except.ok [";idspace=????".toList, ";section=menu".toList, "k1|t1".toList,
        "k2|t2".toList, ";section=scripts".toList, "s1|MISSING_LOCALISATION".toList] ∧
    merge_abbreviated_entries
      [("menu".toList, [⟨"k1".toList, "t1".toList⟩, ⟨"k2".toList, "t2".toList⟩]),
       ("scripts".toList, [⟨"s1".toList, "MISSING_LOCALISATION".toList⟩])]
      [";idspace=????".toList, ";section=menu".toList, "k1|t1".toList,
        "k2|t2".toList, ";section=scripts".toList, "s1|MISSING_LOCALISATION".toList] =
      Except.ok [";idspace=????".toList, ";section=menu".toList, "k1|t1".toList,
        "k2|t2".toList, ";section=scripts".toList, "s1|MISSING_LOCALISATION".toList] :=
  ⟨by decide, by decide,
   C3_merge_idempotent
     [("menu".toList, [⟨"k1".toList, "t1".toList⟩, ⟨"k2".toList, "t2".toList⟩]),
      ("scripts".toList, [⟨"s1".toList, "MISSING_LOCALISATION".toList⟩])]
     [";idspace=????".toList, ";section=menu".toList, "k1|t1".toList]
     [";idspace=????".toList, ";section=menu".toList, "k1|t1".toList,
       "k2|t2".toList, ";section=scripts".toList, "s1|MISSING_LOCALISATION".toList]
     (by decide) (by decide) (by decide)⟩
